import Mathlib

/-!
Shallow embedding of the vscode-agent-color extension sources.

Strings fed to the hash are modelled as their sequences of UTF-16 code
units (`List Nat`), matching JavaScript `charCodeAt`.  Configuration
records (`workbench.colorCustomizations`) are modelled as association
lists in insertion order, matching JavaScript object spread/delete
semantics; an absent setting is `none`.  File contents for the git
exclude file are modelled as `List Char` with an absent file read as `[]`.
-/

namespace AgentColor

/-- 2^32, the modulus of JavaScript unsigned 32-bit coercion. -/
def U32 : Nat := 4294967296

/-- JavaScript ToInt32 of a nonnegative number: reduce mod 2^32 and
reinterpret the high bit as a sign. -/
def jsToInt32 (n : Nat) : Int :=
  if n % U32 < 2147483648 then ((n % U32 : Nat) : Int)
  else ((n % U32 : Nat) : Int) - (U32 : Int)

/-- JavaScript `x >>> 0` (ToUint32) applied to an integer. -/
def jsToUint32 (x : Int) : Nat := (x % (U32 : Int)).toNat

/-- One step of the hash loop from the source:
`h = ((h << 5) + h + str.charCodeAt(i)) >>> 0`.
`h << 5` is a signed 32-bit shift, i.e. ToInt32 of `h * 32`. -/
def hashStep (h : Nat) (c : Nat) : Nat :=
  jsToUint32 (jsToInt32 (h * 32) + (h : Int) + (c : Int))

/-- The djb2 hash from the source (`function hash(str)`), over the
string's char codes. -/
def hash (s : List Nat) : Nat := s.foldl hashStep 5381

/-- The reference djb2 recurrence named by the spec:
start at 5381, then `acc = (acc*33 + charCode) mod 2^32`. -/
def djb2Ref (s : List Nat) : Nat :=
  s.foldl (fun acc c => (acc * 33 + c) % U32) 5381

/-- The palette table of the deterministic variant (12 entries of
background/foreground pairs). -/
def PALETTE : List (String × String) :=
  [("#0D0D6F", "#FFFFFF"),
   ("#FF6B00", "#000000"),
   ("#00E5FF", "#000000"),
   ("#99004D", "#FFFFFF"),
   ("#B388FF", "#000000"),
   ("#004D40", "#FFFFFF"),
   ("#FF69B4", "#000000"),
   ("#0055CC", "#FFFFFF"),
   ("#FF9E00", "#000000"),
   ("#E040FB", "#000000"),
   ("#1A237E", "#FFFFFF"),
   ("#00BFA5", "#000000")]

/-- `colorIndexForName`: `hash(name) % PALETTE.length`. -/
def colorIndexForName (name : List Nat) : Nat := hash name % PALETTE.length

/-- A JavaScript object holding string values, in insertion order. -/
abbrev Record := List (String × String)

/-- First-match key lookup in a record. -/
def recLookup : Record → String → Option String
  | [], _ => none
  | (k, v) :: rest, key => if k = key then some v else recLookup rest key

/-- JavaScript object spread `\x7b ...a, ...b \x7d`: the keys of `a` in
order, with values overridden by `b` where `b` has the key, followed by
the keys of `b` that `a` lacks, in `b`'s order. -/
def spreadMerge (a b : Record) : Record :=
  a.map (fun kv => (kv.1, (recLookup b kv.1).getD kv.2)) ++
    b.filter (fun kv => (recLookup a kv.1).isNone)

/-- The style keys this extension owns (the `keysToRemove` /
`COLOR_KEYS` list of the source). -/
def COLOR_KEYS : List String :=
  ["titleBar.activeBackground",
   "titleBar.activeForeground",
   "titleBar.inactiveBackground",
   "titleBar.inactiveForeground"]

/-- The `colors` object built by `applyColor` for a palette pair. -/
def ownedColors (bg fg : String) : Record :=
  [("titleBar.activeBackground", bg),
   ("titleBar.activeForeground", fg),
   ("titleBar.inactiveBackground", bg ++ "CC"),
   ("titleBar.inactiveForeground", fg ++ "AA")]

/-- `getExistingCustomizations`: the stored mapping, or empty when the
setting is absent. -/
def getExistingCustomizations (cfg : Option Record) : Record := cfg.getD []

/-- The merge performed by `applyColor`:
`\x7b ...getExistingCustomizations(), ...colors \x7d`. -/
def applyPair (existing : Record) (bg fg : String) : Record :=
  spreadMerge existing (ownedColors bg fg)

/-- `applyColor(index)`: look up `PALETTE[index % PALETTE.length]` and
write the merged mapping back (the written value is always an object,
never `undefined`). -/
def applyColor (cfg : Option Record) (index : Nat) : Option Record :=
  let pair := PALETTE.getD (index % PALETTE.length) ("", "")
  some (applyPair (getExistingCustomizations cfg) pair.1 pair.2)

/-- Whether a style key is not one of the owned `COLOR_KEYS`. -/
def notOwned (k : String) : Bool := decide (k ∉ COLOR_KEYS)

/-- `clearColor()`: delete the owned keys from the existing mapping and
write the remainder back, or `undefined` when the remainder is empty. -/
def clearColor (cfg : Option Record) : Option Record :=
  if ((getExistingCustomizations cfg).filter (fun kv => notOwned kv.1)).length > 0
  then some ((getExistingCustomizations cfg).filter (fun kv => notOwned kv.1))
  else none

/-- Lookup through the optional configuration value. -/
def cfgLookup (cfg : Option Record) (k : String) : Option String :=
  recLookup (getExistingCustomizations cfg) k

/-- The index selection of `activate`: a stored override is checked
first; otherwise `colorIndexForName` of the workspace name when one is
open; otherwise no color is applied. -/
def activationIndex (override : Option Nat) (name : Option (List Nat)) :
    Option Nat :=
  match override with
  | some o => some o
  | none =>
      match name with
      | some n => some (colorIndexForName n)
      | none => none

/-- The effect of `activate` on the stored style configuration. -/
def activateCfg (override : Option Nat) (name : Option (List Nat))
    (cfg : Option Record) : Option Record :=
  match activationIndex override name with
  | some i => applyColor cfg i
  | none => cfg

/-- The index computed by the `agentColor.reroll` handler:
`base = name ? colorIndexForName(name) : 0` and
`newIndex = (base + offset) % PALETTE.length`, where
`offset = 1 + Math.floor(Math.random() * (PALETTE.length - 1))`. -/
def rerollIndex (name : Option (List Nat)) (offset : Nat) : Nat :=
  ((name.map colorIndexForName).getD 0 + offset) % PALETTE.length

/-- The `agentColor.reroll` handler: store the new index as the
override and apply it. Returns (new override state, new configuration). -/
def rerollEffect (name : Option (List Nat)) (offset : Nat)
    (cfg : Option Record) : Option Nat × Option Record :=
  let newIndex := rerollIndex name offset
  (some newIndex, applyColor cfg newIndex)

/-- The `agentColor.clear` handler: drop the override and clear the
owned style keys. -/
def clearEffect (cfg : Option Record) : Option Nat × Option Record :=
  (none, clearColor cfg)

/-- Whitespace characters removed by JavaScript `String.trim`. -/
def isWsChar (c : Char) : Bool :=
  c = ' ' || c = '\t' || c = '\n' || c = '\r' ||
    c = '\u000B' || c = '\u000C'

/-- JavaScript `String.trim` on a character list. -/
def trimChars (l : List Char) : List Char :=
  ((l.dropWhile isWsChar).reverse.dropWhile isWsChar).reverse

/-- `content.split("\n")` for a single-character separator. -/
def splitNl : List Char → List (List Char)
  | [] => [[]]
  | c :: rest =>
      if c = '\n' then [] :: splitNl rest
      else
        match splitNl rest with
        | [] => [[c]]
        | s :: ss => (c :: s) :: ss

/-- The entry written to the exclude file: `.vscode/settings.json`. -/
def EXCLUDE_ENTRY : List Char := ".vscode/settings.json".data

/-- Whether some line of the content, trimmed, equals the entry exactly
(the membership check of `ensureGitExclude`). -/
def hasEntryLine (c : List Char) : Bool :=
  (splitNl c).any (fun line => decide (trimChars line = EXCLUDE_ENTRY))

/-- The separator prepended before appending:
a newline when the content is nonempty and does not end in one. -/
def padNl (c : List Char) : List Char :=
  if c.length > 0 && !(c.getLast? == some '\n') then ['\n'] else []

/-- `ensureGitExclude` / `hideFromGit` restricted to the content of the
exclude file (an absent file reads as `[]`; `appendFileSync` creates
it). The tracked-file check and the `info` directory creation are
filesystem effects outside this model. -/
def ensureGitExclude (c : List Char) : List Char :=
  if hasEntryLine c then c
  else c ++ padNl c ++ EXCLUDE_ENTRY ++ ['\n']

end AgentColor

namespace Spread

/-- The palette table of the random-variant source (`src/extension.ts`),
12 entries. -/
def SPALETTE : List (String × String) :=
  [("#8B5CF6", "#FFFFFF"),
   ("#EC4899", "#FFFFFF"),
   ("#06B6D4", "#000000"),
   ("#F97316", "#000000"),
   ("#6366F1", "#FFFFFF"),
   ("#D946EF", "#FFFFFF"),
   ("#0EA5E9", "#000000"),
   ("#14B8A6", "#000000"),
   ("#A855F7", "#FFFFFF"),
   ("#F472B6", "#000000"),
   ("#2563EB", "#FFFFFF"),
   ("#E879F9", "#000000")]

/-- JavaScript `l.slice(-n)` for positive `n`: the last `min(n, length)`
elements. -/
def jsSliceLast (l : List Nat) (n : Nat) : List Nat := l.drop (l.length - n)

/-- The history bound: `Math.floor(PALETTE.length * 0.75)`. -/
def TRIM_BOUND : Nat := SPALETTE.length * 3 / 4

/-- The `available` list of `pickIndex`: palette indices not in the
used history. -/
def availableIdx (used : List Nat) : List Nat :=
  (List.range SPALETTE.length).filter (fun i => decide (i ∉ used))

/-- The candidate pool of `pickIndex`: the available indices, or the
full range when none remain. -/
def pickPool (used : List Nat) : List Nat :=
  if (availableIdx used).length > 0 then availableIdx used
  else List.range SPALETTE.length

/-- `pickIndex`, with the random draw `Math.floor(Math.random() * pool.length)`
modelled by a parameter `r < pool.length`. Returns the picked index and
the updated used-indices history written to global state. -/
def pickIndex (used : List Nat) (r : Nat) : Nat × List Nat :=
  let index := (pickPool used).getD r 0
  (index, jsSliceLast (used ++ [index]) TRIM_BOUND)

/-- `activate`: use the stored per-workspace index when present,
otherwise pick one and persist it. Returns (applied index, stored
per-workspace assignment afterwards, used history afterwards). -/
def activateSpread (stored : Option Nat) (used : List Nat) (r : Nat) :
    Nat × Option Nat × List Nat :=
  match stored with
  | some i => (i, some i, used)
  | none =>
      let p := pickIndex used r
      (p.1, some p.1, p.2)

end Spread

namespace AgentColor

theorem hashStep_eq (h c : Nat) : hashStep h c = (h * 33 + c) % U32 := by
  unfold hashStep jsToUint32 jsToInt32 U32
  split <;> omega

theorem foldl_hashStep_eq (s : List Nat) :
    ∀ a : Nat, s.foldl hashStep a = s.foldl (fun acc c => (acc * 33 + c) % U32) a := by
  induction s with
  | nil => intro a; rfl
  | cons c t ih => intro a; simp only [List.foldl_cons, hashStep_eq]; exact ih _

theorem hash_eq_djb2Ref (s : List Nat) : hash s = djb2Ref s :=
  foldl_hashStep_eq s 5381

theorem recLookup_append (a b : Record) (k : String) :
    recLookup (a ++ b) k =
      match recLookup a k with
      | some v => some v
      | none => recLookup b k := by
  induction a with
  | nil => rfl
  | cons kv rest ih =>
      obtain ⟨k0, v0⟩ := kv
      by_cases h : k0 = k
      · simp [recLookup, h]
      · simp [recLookup, h, ih]

theorem recLookup_map_override (a b : Record) (k : String) :
    recLookup (a.map (fun kv => (kv.1, (recLookup b kv.1).getD kv.2))) k =
      match recLookup a k with
      | some v => some ((recLookup b k).getD v)
      | none => none := by
  induction a with
  | nil => rfl
  | cons kv rest ih =>
      obtain ⟨k0, v0⟩ := kv
      by_cases h : k0 = k
      · subst h; simp [recLookup]
      · simp [recLookup, h, ih]

theorem recLookup_filter_key (b : Record) (p : String → Bool) (k : String) :
    recLookup (b.filter (fun kv => p kv.1)) k =
      if p k then recLookup b k else none := by
  induction b with
  | nil => simp [recLookup]
  | cons kv rest ih =>
      obtain ⟨k0, v0⟩ := kv
      simp only [List.filter_cons]
      by_cases hp : p k0
      · simp only [hp, if_true]
        by_cases h : k0 = k
        · subst h; simp [recLookup, hp]
        · simp [recLookup, h, ih]
      · simp only [hp, Bool.false_eq_true, if_false]
        by_cases h : k0 = k
        · subst h; simp [recLookup, ih, hp]
        · simp [recLookup, h, ih]

theorem recLookup_spreadMerge (a b : Record) (k : String) :
    recLookup (spreadMerge a b) k =
      match recLookup b k with
      | some w => some w
      | none => recLookup a k := by
  unfold spreadMerge
  rw [recLookup_append, recLookup_map_override,
    recLookup_filter_key b (fun key => (recLookup a key).isNone) k]
  cases ha : recLookup a k <;> cases hb : recLookup b k <;> simp [ha, hb]

theorem recLookup_ownedColors_of_not_mem (bg fg k : String)
    (h : k ∉ COLOR_KEYS) : recLookup (ownedColors bg fg) k = none := by
  simp only [COLOR_KEYS, List.mem_cons, List.not_mem_nil, or_false, not_or] at h
  obtain ⟨h1, h2, h3, h4⟩ := h
  have g1 : ¬("titleBar.activeBackground" = k) := fun e => h1 e.symm
  have g2 : ¬("titleBar.activeForeground" = k) := fun e => h2 e.symm
  have g3 : ¬("titleBar.inactiveBackground" = k) := fun e => h3 e.symm
  have g4 : ¬("titleBar.inactiveForeground" = k) := fun e => h4 e.symm
  simp [ownedColors, recLookup, g1, g2, g3, g4]

theorem applyPair_owned_lookups (m : Record) (bg fg : String) :
    recLookup (applyPair m bg fg) "titleBar.activeBackground" = some bg ∧
    recLookup (applyPair m bg fg) "titleBar.activeForeground" = some fg ∧
    recLookup (applyPair m bg fg) "titleBar.inactiveBackground" = some (bg ++ "CC") ∧
    recLookup (applyPair m bg fg) "titleBar.inactiveForeground" = some (fg ++ "AA") := by
  unfold applyPair
  rw [recLookup_spreadMerge, recLookup_spreadMerge, recLookup_spreadMerge,
    recLookup_spreadMerge]
  exact ⟨rfl, rfl, rfl, rfl⟩

theorem applyPair_frame (m : Record) (bg fg k : String) (h : k ∉ COLOR_KEYS) :
    recLookup (applyPair m bg fg) k = recLookup m k := by
  unfold applyPair
  rw [recLookup_spreadMerge, recLookup_ownedColors_of_not_mem bg fg k h]

theorem cfgLookup_clearColor (cfg : Option Record) (k : String) :
    cfgLookup (clearColor cfg) k =
      if notOwned k then cfgLookup cfg k else none := by
  have hf := recLookup_filter_key (getExistingCustomizations cfg) notOwned k
  unfold clearColor
  split
  next hlen => exact hf
  next hlen =>
    have hempty :
        (getExistingCustomizations cfg).filter (fun kv => notOwned kv.1) = [] := by
      cases hfe : (getExistingCustomizations cfg).filter (fun kv => notOwned kv.1) with
      | nil => rfl
      | cons x xs => rw [hfe] at hlen; simp at hlen
    rw [hempty] at hf
    exact hf

theorem clearColor_none : clearColor none = none := rfl

theorem clearColor_eq_none_iff (cfg : Option Record) :
    clearColor cfg = none ↔
      (getExistingCustomizations cfg).filter (fun kv => notOwned kv.1) = [] := by
  unfold clearColor
  constructor
  · intro h
    by_contra hne
    have hlen : 0 < ((getExistingCustomizations cfg).filter
        (fun kv => notOwned kv.1)).length := List.length_pos.mpr hne
    simp only [gt_iff_lt, hlen, if_true] at h
    exact Option.noConfusion h
  · intro h
    simp [h]

theorem clearColor_idem (cfg : Option Record) :
    clearColor (clearColor cfg) = clearColor cfg := by
  by_cases hn : clearColor cfg = none
  · rw [hn]; exact clearColor_none
  · obtain ⟨rem, hrem⟩ := Option.ne_none_iff_exists'.mp hn
    have hstruct : 0 < ((getExistingCustomizations cfg).filter
        (fun kv => notOwned kv.1)).length ∧
        rem = (getExistingCustomizations cfg).filter (fun kv => notOwned kv.1) := by
      unfold clearColor at hrem
      split at hrem
      next hlen => exact ⟨hlen, (Option.some_inj.mp hrem).symm⟩
      next => exact Option.noConfusion hrem
    obtain ⟨hlen, hremdef⟩ := hstruct
    have hall : ∀ kv ∈ rem, notOwned kv.1 := by
      intro kv hkv
      rw [hremdef] at hkv
      exact (List.mem_filter.mp hkv).2
    have hsame : rem.filter (fun kv => notOwned kv.1) = rem :=
      List.filter_eq_self.mpr hall
    have hpos : 0 < rem.length := by rw [hremdef]; exact hlen
    rw [hrem]
    unfold clearColor
    simp only [getExistingCustomizations, Option.getD_some, hsame]
    rw [if_pos hpos]

theorem splitNl_ne_nil (l : List Char) : splitNl l ≠ [] := by
  cases l with
  | nil => simp [splitNl]
  | cons c rest =>
      simp only [splitNl]
      by_cases h : c = '\n'
      · simp [h]
      · simp only [h, if_false]
        cases splitNl rest <;> simp

theorem splitNl_append_no_nl (xs ys : List Char) (h : ∀ ch ∈ xs, ch ≠ '\n') :
    ∃ s ss, splitNl ys = s :: ss ∧ splitNl (xs ++ ys) = (xs ++ s) :: ss := by
  induction xs with
  | nil =>
      cases hys : splitNl ys with
      | nil => exact absurd hys (splitNl_ne_nil ys)
      | cons s ss => exact ⟨s, ss, rfl, by simp [hys]⟩
  | cons c rest ih =>
      have hc : c ≠ '\n' := h c (List.mem_cons_self _ _)
      have hrest : ∀ ch ∈ rest, ch ≠ '\n' :=
        fun ch hch => h ch (List.mem_cons_of_mem _ hch)
      obtain ⟨s, ss, hys, happ⟩ := ih hrest
      exact ⟨s, ss, hys, by simp [splitNl, hc, happ]⟩

theorem splitNl_append_newline (q ys : List Char) :
    ∃ p0 ps, splitNl (q ++ '\n' :: ys) = p0 :: (ps ++ splitNl ys) := by
  induction q with
  | nil => exact ⟨[], [], by simp [splitNl]⟩
  | cons c rest ih =>
      obtain ⟨p0, ps, hp⟩ := ih
      by_cases hc : c = '\n'
      · exact ⟨[], p0 :: ps, by simp [splitNl, hc, hp]⟩
      · exact ⟨c :: p0, ps, by simp [splitNl, hc, hp]⟩

theorem splitNl_entry_block :
    splitNl (EXCLUDE_ENTRY ++ ['\n']) = [EXCLUDE_ENTRY, []] := by decide

theorem exists_concat_of_getLast? (d : List Char) (a : Char)
    (h : d.getLast? = some a) : ∃ q, d = q ++ [a] := by
  induction d with
  | nil => exact Option.noConfusion h
  | cons c rest ih =>
      cases rest with
      | nil =>
          simp only [List.getLast?_singleton, Option.some_inj] at h
          exact ⟨[], by simp [h]⟩
      | cons c2 rest2 =>
          rw [List.getLast?_cons_cons] at h
          obtain ⟨q, hq⟩ := ih h
          exact ⟨c :: q, by rw [hq]; rfl⟩

theorem entry_mem_splitNl (d : List Char)
    (h : d = [] ∨ d.getLast? = some '\n') :
    EXCLUDE_ENTRY ∈ splitNl (d ++ (EXCLUDE_ENTRY ++ ['\n'])) := by
  rcases h with h | h
  · subst h
    rw [List.nil_append, splitNl_entry_block]
    exact List.mem_cons_self _ _
  · obtain ⟨q, hq⟩ := exists_concat_of_getLast? d '\n' h
    subst hq
    have hassoc : (q ++ ['\n']) ++ (EXCLUDE_ENTRY ++ ['\n']) =
        q ++ '\n' :: (EXCLUDE_ENTRY ++ ['\n']) := by simp
    rw [hassoc]
    obtain ⟨p0, ps, hp⟩ := splitNl_append_newline q (EXCLUDE_ENTRY ++ ['\n'])
    rw [hp, splitNl_entry_block]
    simp

theorem padNl_spec (c : List Char) :
    c ++ padNl c = [] ∨ (c ++ padNl c).getLast? = some '\n' := by
  unfold padNl
  by_cases h1 : (decide (c.length > 0) && !(c.getLast? == some '\n')) = true
  · right
    rw [if_pos h1]
    exact List.getLast?_concat c
  · rw [if_neg h1]
    simp only [List.append_nil]
    by_cases hc : c = []
    · exact Or.inl hc
    · right
      have hpos : 0 < c.length := List.length_pos.mpr hc
      simp only [Bool.and_eq_true, Bool.not_eq_true', beq_eq_false_iff_ne,
        ne_eq, decide_eq_true_eq, not_and, not_not, gt_iff_lt] at h1
      exact h1 hpos

theorem hasEntryLine_append_entry (c : List Char) :
    hasEntryLine (c ++ padNl c ++ EXCLUDE_ENTRY ++ ['\n']) = true := by
  have hassoc : c ++ padNl c ++ EXCLUDE_ENTRY ++ ['\n'] =
      (c ++ padNl c) ++ (EXCLUDE_ENTRY ++ ['\n']) := by simp
  rw [hassoc]
  unfold hasEntryLine
  rw [List.any_eq_true]
  exact ⟨EXCLUDE_ENTRY, entry_mem_splitNl (c ++ padNl c) (padNl_spec c),
    by decide⟩

theorem ensureGitExclude_idem (c : List Char) :
    ensureGitExclude (ensureGitExclude c) = ensureGitExclude c := by
  by_cases h : hasEntryLine c
  · unfold ensureGitExclude
    simp [h]
  · have h2 : ensureGitExclude c = c ++ padNl c ++ EXCLUDE_ENTRY ++ ['\n'] := by
      simp [ensureGitExclude, h]
    rw [h2]
    unfold ensureGitExclude
    rw [if_pos (hasEntryLine_append_entry c)]

theorem palette_getD_get? (j : Nat) (hj : j < 12) :
    PALETTE.get? j = some (PALETTE.getD j ("", "")) := by
  interval_cases j <;> rfl

end AgentColor

namespace Spread

theorem mem_pickPool_lt (used : List Nat) (i : Nat) (h : i ∈ pickPool used) :
    i < SPALETTE.length := by
  unfold pickPool at h
  split at h
  · exact List.mem_range.mp (List.mem_filter.mp h).1
  · exact List.mem_range.mp h

theorem pickPool_avoids (used : List Nat)
    (hnot : ¬ ∀ j, j < SPALETTE.length → j ∈ used) (i : Nat)
    (h : i ∈ pickPool used) : i ∉ used := by
  have havail : availableIdx used ≠ [] := by
    intro he
    apply hnot
    intro j hj
    have hj2 := List.filter_eq_nil_iff.mp he j (List.mem_range.mpr hj)
    simpa using hj2
  have hlen : 0 < (availableIdx used).length := List.length_pos.mpr havail
  unfold pickPool at h
  rw [if_pos hlen] at h
  have := (List.mem_filter.mp h).2
  simpa using this

theorem pickPool_full (used : List Nat)
    (hall : ∀ j, j < SPALETTE.length → j ∈ used) :
    pickPool used = List.range SPALETTE.length := by
  have he : availableIdx used = [] := by
    rw [availableIdx, List.filter_eq_nil_iff]
    intro a ha
    simp [hall a (List.mem_range.mp ha)]
  unfold pickPool
  rw [he]
  simp

theorem pick_mem_pool (used : List Nat) (r : Nat)
    (hr : r < (pickPool used).length) :
    (pickIndex used r).1 ∈ pickPool used := by
  show (pickPool used).getD r 0 ∈ pickPool used
  rw [List.getD_eq_getElem?_getD, List.getElem?_eq_getElem hr]
  exact List.get_mem _ r hr

theorem jsSliceLast_concat (l : List Nat) (i : Nat) (n : Nat) (hn : 0 < n) :
    ∃ pre, jsSliceLast (l ++ [i]) n = pre ++ [i] := by
  unfold jsSliceLast
  rw [List.drop_append_eq_append_drop]
  have hz : (l ++ [i]).length - n - l.length = 0 := by
    simp only [List.length_append, List.length_cons, List.length_nil]
    omega
  rw [hz, List.drop_zero]
  exact ⟨l.drop ((l ++ [i]).length - n), rfl⟩

theorem jsSliceLast_length_le (l : List Nat) (n : Nat) :
    (jsSliceLast l n).length ≤ n := by
  unfold jsSliceLast
  rw [List.length_drop]
  omega

end Spread

/-- C1: On activation under the deterministic policy, the index handed
to the presentation layer equals the stored override when one is
present (the override is checked first and takes precedence), and
otherwise equals `hash(workspaceName) mod PALETTE.length`; the
no-override index is a pure function of the workspace name, so repeated
activations apply the same index with no persistence needed. -/
theorem C1_activation_override_precedence :
    (∀ (o : Nat) (name : Option (List Nat)),
        AgentColor.activationIndex (some o) name = some o) ∧
    (∀ n : List Nat, AgentColor.activationIndex none (some n) =
        some (AgentColor.hash n % AgentColor.PALETTE.length)) :=
  ⟨fun _ _ => rfl, fun _ => rfl⟩

/-- C2: The hash of the source equals the djb2 reference recurrence:
accumulator 5381, then `acc = (acc*33 + charCode) mod 2^32` per
character; it is total over all char-code sequences and the hash of the
empty string is 5381.  Determinism and dependence on only the input
characters hold because `hash` is a pure function of the code list. -/
theorem C2_hash_is_djb2 :
    (∀ s : List Nat, AgentColor.hash s =
        s.foldl (fun acc c => (acc * 33 + c) % 4294967296) 5381) ∧
    AgentColor.hash [] = 5381 :=
  ⟨fun s => AgentColor.hash_eq_djb2Ref s, rfl⟩

/-- C3 counterexample: with workspace name "a" (char code 97), the base
index is 10, so a first reroll with offset 1 stores override 11 and
displays palette index 11; a second reroll drawing the same offset 1
again produces 11, equal to the currently displayed index — the visible
color does not change. -/
theorem C3_counterexample_reroll_repeats :
    AgentColor.rerollIndex (some [97]) 1 = 11 ∧
    AgentColor.activationIndex (some 11) (some [97]) = some 11 ∧
    (1 : Nat) ≤ 1 ∧ (1 : Nat) ≤ AgentColor.PALETTE.length - 1 := by
  exact ⟨by decide, rfl, Nat.le_refl 1, by decide⟩

/-- C3 (amended): a reroll never produces the base hash-derived index,
so whenever the currently displayed index is the no-override activation
index, the reroll changes the visible color; consecutive rerolls may
repeat the previous override index when the same offset is drawn. -/
theorem C3_amended_reroll_differs_from_base_display :
    ∀ (n : List Nat) (offset : Nat), 1 ≤ offset →
      offset ≤ AgentColor.PALETTE.length - 1 →
      some (AgentColor.rerollIndex (some n) offset) ≠
        AgentColor.activationIndex none (some n) := by
  intro n offset h1 h2 hEq
  have hL : AgentColor.PALETTE.length = 12 := rfl
  simp only [AgentColor.rerollIndex, AgentColor.activationIndex,
    AgentColor.colorIndexForName, Option.map_some', Option.getD_some,
    Option.some_inj, hL] at hEq h2
  omega

/-- Witness for the amended C3 at name "a", offset 1. -/
theorem C3_amended_witness :
    1 ≤ 1 ∧ 1 ≤ AgentColor.PALETTE.length - 1 ∧
      some (AgentColor.rerollIndex (some [97]) 1) ≠
        AgentColor.activationIndex none (some [97]) :=
  ⟨Nat.le_refl 1, by decide,
    C3_amended_reroll_differs_from_base_display [97] 1 (Nat.le_refl 1)
      (by decide)⟩

/-- C4: applying a palette pair sets the four owned title-bar keys to
bg, fg, bg ++ "CC" and fg ++ "AA", preserves every key outside the
owned set, and a second apply with another pair leaves only the latest
values on the owned keys. -/
theorem C4_apply_sets_owned_preserves_rest :
    ∀ (m : AgentColor.Record) (bg fg : String),
      AgentColor.recLookup (AgentColor.applyPair m bg fg)
        "titleBar.activeBackground" = some bg ∧
      AgentColor.recLookup (AgentColor.applyPair m bg fg)
        "titleBar.activeForeground" = some fg ∧
      AgentColor.recLookup (AgentColor.applyPair m bg fg)
        "titleBar.inactiveBackground" = some (bg ++ "CC") ∧
      AgentColor.recLookup (AgentColor.applyPair m bg fg)
        "titleBar.inactiveForeground" = some (fg ++ "AA") ∧
      (∀ k, k ∉ AgentColor.COLOR_KEYS →
        AgentColor.recLookup (AgentColor.applyPair m bg fg) k =
          AgentColor.recLookup m k) ∧
      (∀ bg2 fg2 : String,
        AgentColor.recLookup
          (AgentColor.applyPair (AgentColor.applyPair m bg fg) bg2 fg2)
          "titleBar.activeBackground" = some bg2 ∧
        AgentColor.recLookup
          (AgentColor.applyPair (AgentColor.applyPair m bg fg) bg2 fg2)
          "titleBar.activeForeground" = some fg2 ∧
        AgentColor.recLookup
          (AgentColor.applyPair (AgentColor.applyPair m bg fg) bg2 fg2)
          "titleBar.inactiveBackground" = some (bg2 ++ "CC") ∧
        AgentColor.recLookup
          (AgentColor.applyPair (AgentColor.applyPair m bg fg) bg2 fg2)
          "titleBar.inactiveForeground" = some (fg2 ++ "AA")) := by
  intro m bg fg
  obtain ⟨a1, a2, a3, a4⟩ := AgentColor.applyPair_owned_lookups m bg fg
  exact ⟨a1, a2, a3, a4, AgentColor.applyPair_frame m bg fg,
    fun bg2 fg2 => AgentColor.applyPair_owned_lookups _ bg2 fg2⟩

/-- Witness for C4: an unrelated key of the existing mapping keeps its
value through an apply. -/
theorem C4_witness :
    ("editor.background" ∉ AgentColor.COLOR_KEYS) ∧
      AgentColor.recLookup
        (AgentColor.applyPair [("editor.background", "#123456")]
          "#0D0D6F" "#FFFFFF")
        "editor.background" = some "#123456" := by
  refine ⟨by decide, ?_⟩
  have h := (C4_apply_sets_owned_preserves_rest
      [("editor.background", "#123456")] "#0D0D6F" "#FFFFFF").2.2.2.2.1
      "editor.background" (by decide)
  rw [h]
  rfl

/-- C5: clear removes exactly the owned style keys, leaves every other
key with its value, writes back `undefined` exactly when the remaining
mapping is empty, treats a missing mapping as empty (so clearing with
no color ever applied yields `undefined` and does not raise), and a
second consecutive clear is a no-op. -/
theorem C5_clear_removes_owned_only :
    ∀ cfg : Option AgentColor.Record,
      (∀ k, k ∈ AgentColor.COLOR_KEYS →
          AgentColor.cfgLookup (AgentColor.clearColor cfg) k = none) ∧
      (∀ k, k ∉ AgentColor.COLOR_KEYS →
          AgentColor.cfgLookup (AgentColor.clearColor cfg) k =
            AgentColor.cfgLookup cfg k) ∧
      (AgentColor.clearColor cfg = none ↔
        (AgentColor.getExistingCustomizations cfg).filter
          (fun kv => AgentColor.notOwned kv.1) = []) ∧
      AgentColor.clearColor none = none ∧
      AgentColor.clearColor (AgentColor.clearColor cfg) =
        AgentColor.clearColor cfg := by
  intro cfg
  refine ⟨?_, ?_, AgentColor.clearColor_eq_none_iff cfg,
    AgentColor.clearColor_none, AgentColor.clearColor_idem cfg⟩
  · intro k hk
    rw [AgentColor.cfgLookup_clearColor]
    have hno : AgentColor.notOwned k = false := by
      simp [AgentColor.notOwned, hk]
    rw [hno]
    simp
  · intro k hk
    rw [AgentColor.cfgLookup_clearColor]
    have hyes : AgentColor.notOwned k = true := by
      simp [AgentColor.notOwned, hk]
    rw [hyes]
    simp

/-- Witness for C5: clearing a mapping holding one owned key and one
unrelated key keeps the unrelated key with its value. -/
theorem C5_witness :
    ("editor.fontFamily" ∉ AgentColor.COLOR_KEYS) ∧
      AgentColor.cfgLookup
        (AgentColor.clearColor
          (some [("titleBar.activeBackground", "#0D0D6F"),
            ("editor.fontFamily", "monospace")]))
        "editor.fontFamily" = some "monospace" := by
  refine ⟨by decide, ?_⟩
  have h := (C5_clear_removes_owned_only
      (some [("titleBar.activeBackground", "#0D0D6F"),
        ("editor.fontFamily", "monospace")])).2.1
      "editor.fontFamily" (by decide)
  rw [h]
  rfl

/-- C6: on a missing exclude file (content read as empty) the written
content is exactly the entry line terminated by a newline; the entry is
appended, newline-terminated, exactly when no existing line trimmed
equals it; and the operation is idempotent: a second call changes
nothing, so repeated calls never produce duplicate lines. -/
theorem C6_exclude_append_idempotent :
    AgentColor.ensureGitExclude [] = AgentColor.EXCLUDE_ENTRY ++ ['\n'] ∧
    (∀ c, AgentColor.hasEntryLine c = false →
        AgentColor.ensureGitExclude c =
          c ++ AgentColor.padNl c ++ AgentColor.EXCLUDE_ENTRY ++ ['\n']) ∧
    (∀ c, AgentColor.hasEntryLine c = true →
        AgentColor.ensureGitExclude c = c) ∧
    (∀ c, AgentColor.ensureGitExclude (AgentColor.ensureGitExclude c) =
        AgentColor.ensureGitExclude c) := by
  refine ⟨by decide, ?_, ?_, AgentColor.ensureGitExclude_idem⟩
  · intro c h
    simp [AgentColor.ensureGitExclude, h]
  · intro c h
    simp [AgentColor.ensureGitExclude, h]

/-- Witness for C6: on a file holding `ab` without the entry, the entry
is appended after a separating newline. -/
theorem C6_witness :
    AgentColor.hasEntryLine ['a', 'b'] = false ∧
      AgentColor.ensureGitExclude ['a', 'b'] =
        ['a', 'b'] ++ AgentColor.padNl ['a', 'b'] ++
          AgentColor.EXCLUDE_ENTRY ++ ['\n'] :=
  ⟨by decide, C6_exclude_append_idempotent.2.1 ['a', 'b'] (by decide)⟩

/-- C7 counterexample: with no workspace folder open (name `none`) and
an empty configuration, the `agentColor.reroll` handler is not a no-op:
it falls back to base index 0, stores override `(0 + 1) % 12 = 1` and
writes palette entry 1 (`#FF6B00`) into the style configuration. -/
theorem C7_counterexample_reroll_not_noop :
    AgentColor.cfgLookup (AgentColor.rerollEffect none 1 none).2
      "titleBar.activeBackground" = some "#FF6B00" ∧
    (AgentColor.rerollEffect none 1 none).1 = some 1 := by
  exact ⟨by decide, by decide⟩

/-- C7 (amended): with no workspace folder open, activation with no
stored override applies no color, but the commands stay live: reroll
uses base index 0, stores `offset % 12` as the override and applies
that palette entry; clear still runs and on an empty configuration
writes back `undefined` (no change, nothing raised). -/
theorem C7_amended_commands_active_without_workspace :
    ∀ (cfg : Option AgentColor.Record) (offset : Nat),
      AgentColor.activateCfg none none cfg = cfg ∧
      (AgentColor.rerollEffect none offset cfg).1 =
        some (offset % AgentColor.PALETTE.length) ∧
      (AgentColor.rerollEffect none offset cfg).2 =
        AgentColor.applyColor cfg (offset % AgentColor.PALETTE.length) ∧
      (AgentColor.clearEffect none).2 = none := by
  intro cfg offset
  have hz : AgentColor.rerollIndex none offset =
      offset % AgentColor.PALETTE.length := by
    simp [AgentColor.rerollIndex]
  refine ⟨rfl, ?_, ?_, rfl⟩
  · show some (AgentColor.rerollIndex none offset) = _
    rw [hz]
  · show AgentColor.applyColor cfg (AgentColor.rerollIndex none offset) = _
    rw [hz]

/-- C9: under the deterministic policy, for every workspace name and
every offset in `[1, N-1]` with `N = PALETTE.length = 12`, the rerolled
index `(hash(name) mod N + offset) mod N` differs from the base index
`hash(name) mod N`. -/
theorem C9_reroll_offset_changes_index :
    ∀ (name : List Nat) (offset : Nat), 1 ≤ offset →
      offset ≤ AgentColor.PALETTE.length - 1 →
      (AgentColor.hash name % AgentColor.PALETTE.length + offset) %
          AgentColor.PALETTE.length ≠
        AgentColor.hash name % AgentColor.PALETTE.length := by
  intro name offset h1 h2 hEq
  have hL : AgentColor.PALETTE.length = 12 := rfl
  rw [hL] at hEq h2
  omega

/-- Witness for C9 at name "b" (char code 98), offset 1. -/
theorem C9_witness :
    1 ≤ 1 ∧ 1 ≤ AgentColor.PALETTE.length - 1 ∧
      (AgentColor.hash [98] % AgentColor.PALETTE.length + 1) %
          AgentColor.PALETTE.length ≠
        AgentColor.hash [98] % AgentColor.PALETTE.length :=
  ⟨Nat.le_refl 1, by decide,
    C9_reroll_offset_changes_index [98] 1 (Nat.le_refl 1) (by decide)⟩

/-- C10: for every nonnegative index, `applyColor` reduces the index
modulo the palette length before the table lookup, so the lookup yields
a valid palette pair (`get?` returns `some`) and the applied mapping is
the merge with exactly that pair. -/
theorem C10_apply_index_mod_safe :
    ∀ (index : Nat) (cfg : Option AgentColor.Record),
      ∃ bg fg,
        AgentColor.PALETTE.get? (index % AgentColor.PALETTE.length) =
          some (bg, fg) ∧
        AgentColor.applyColor cfg index =
          some (AgentColor.applyPair
            (AgentColor.getExistingCustomizations cfg) bg fg) := by
  intro index cfg
  refine ⟨(AgentColor.PALETTE.getD (index % AgentColor.PALETTE.length)
      ("", "")).1,
    (AgentColor.PALETTE.getD (index % AgentColor.PALETTE.length)
      ("", "")).2, ?_, rfl⟩
  rw [AgentColor.palette_getD_get? (index % AgentColor.PALETTE.length)
    (Nat.mod_lt index (by decide))]

/-- C8: under the spread policy, the picked index avoids the persisted
history unless every palette index is in it (then the pool is the full
range); the updated history ends with the pick and has length at most
`floor(0.75 * 12) = 9`; and on first activation the pick is persisted
as the per-workspace assignment. -/
theorem C8_spread_pick_invariants :
    ∀ (used : List Nat) (r : Nat), r < (Spread.pickPool used).length →
      ((¬ ∀ j, j < Spread.SPALETTE.length → j ∈ used) →
        (Spread.pickIndex used r).1 ∉ used) ∧
      ((∀ j, j < Spread.SPALETTE.length → j ∈ used) →
        Spread.pickPool used = List.range Spread.SPALETTE.length) ∧
      (Spread.pickIndex used r).1 < Spread.SPALETTE.length ∧
      ((Spread.pickIndex used r).2).getLast? =
        some ((Spread.pickIndex used r).1) ∧
      ((Spread.pickIndex used r).2).length ≤ Spread.TRIM_BOUND ∧
      Spread.TRIM_BOUND = 9 ∧
      (Spread.activateSpread none used r).2.1 =
        some ((Spread.pickIndex used r).1) := by
  intro used r hr
  have hmem := Spread.pick_mem_pool used r hr
  have h2 : (Spread.pickIndex used r).2 =
      Spread.jsSliceLast (used ++ [(Spread.pickIndex used r).1])
        Spread.TRIM_BOUND := rfl
  refine ⟨fun hnot => Spread.pickPool_avoids used hnot _ hmem,
    Spread.pickPool_full used,
    Spread.mem_pickPool_lt used _ hmem, ?_, ?_, rfl, rfl⟩
  · obtain ⟨pre, hpre⟩ := Spread.jsSliceLast_concat used
      ((Spread.pickIndex used r).1) Spread.TRIM_BOUND (by decide)
    rw [h2, hpre]
    exact List.getLast?_concat pre
  · rw [h2]
    exact Spread.jsSliceLast_length_le _ _

/-- Witness for C8 at history `[0, 1]`, random draw 0. -/
theorem C8_witness :
    0 < (Spread.pickPool [0, 1]).length ∧
      (Spread.pickIndex [0, 1] 0).1 < Spread.SPALETTE.length :=
  ⟨by decide, ((C8_spread_pick_invariants [0, 1] 0 (by decide)).2.2).1⟩
